import Mathlib

/-!
Verification development for the Kafka performance-testing toolkit
(scripts/parse_perf_logs.py, scripts/aggregate_results.py,
scripts/generate_excel_report.py).

The Python sources drive everything through compiled regular expressions,
dictionaries and pandas dataframes.  We shallowly embed:

* a small backtracking regular-expression engine faithful to Python's
  leftmost, greedy-with-backtracking matching discipline (every quantifier
  appearing in the source patterns ranges over a single-character class,
  so bounded helper recursion suffices — no general star over subpatterns
  is needed);
* the producer / consumer metric patterns and the configuration patterns
  of KafkaPerformanceParser, together with parse_producer_log,
  parse_consumer_log, _extract_config_from_content and
  _extract_config_from_filename;
* the grouping key, the metric-collection comprehensions and _calc_stats
  of ResultsAggregator (numbers are modelled as rationals; numpy uses
  IEEE doubles, but every claim under study is about exact structural
  behaviour, ordering and linear interpolation, which ℚ captures);
* the scoring formulas and the durability selection of
  ExcelReporter._calculate_all_scores / create_recommendations_sheet.
-/

namespace KafkaPerf

/-! ## Character classes (Python regex semantics, ASCII fragment) -/

/-- Python regex class d : the ASCII decimal digits. -/
def isDig (c : Char) : Bool := '0' ≤ c && c ≤ '9'

/-- Python regex class s : ASCII whitespace (space, tab, newline,
carriage return, form feed, vertical tab). -/
def isSpc (c : Char) : Bool :=
  c = ' ' || c = '\t' || c = '\n' || c = '\r' || c = '\x0c' || c = '\x0b'

/-- Python regex class w (ASCII fragment): letters, digits, underscore. -/
def isWrd (c : Char) : Bool :=
  ('a' ≤ c && c ≤ 'z') || ('A' ≤ c && c ≤ 'Z') || isDig c || c = '_'

/-- Python regex metacharacter dot: any character except a newline. -/
def isNotNl (c : Char) : Bool := c ≠ '\n'

/-- Class for the set containing the digits and the full stop,
written in the sources as a bracket class of digit-or-dot. -/
def isDigDot (c : Char) : Bool := isDig c || c = '.'

/-- Class for an optional underscore-or-hyphen separator in the
filename patterns. -/
def isSep (c : Char) : Bool := c = '_' || c = '-'

/-! ## Regular-expression abstract syntax

Every repetition operator appearing in the embedded patterns applies to a
single-character class, which the constructors reflect directly:
`plus`, `star` and `rep` take a character predicate, not a subpattern. -/

inductive RE where
  /-- empty pattern -/
  | eps : RE
  /-- a literal character -/
  | ch (c : Char) : RE
  /-- a character matched case-insensitively (IGNORECASE literals) -/
  | chI (c : Char) : RE
  /-- one character of a class -/
  | cls (p : Char → Bool) : RE
  /-- concatenation -/
  | cat (a b : RE) : RE
  /-- alternation, left alternative preferred -/
  | alt (a b : RE) : RE
  /-- greedy optional subpattern -/
  | opt (a : RE) : RE
  /-- exactly n characters of a class -/
  | rep (p : Char → Bool) (n : Nat) : RE
  /-- one or more characters of a class, greedy -/
  | plus (p : Char → Bool) : RE
  /-- zero or more characters of a class, greedy -/
  | star (p : Char → Bool) : RE
  /-- numbered capturing group -/
  | group (i : Nat) (a : RE) : RE

/-- Captured groups: group number paired with the captured characters.
Lookup by `List.lookup` returns the innermost (most recent) binding;
the patterns embedded here bind each group number at most once per match. -/
abbrev Caps := List (Nat × List Char)

/-- Continuation used by the backtracking matcher: receives the rest of
the input and the captures accumulated so far. -/
abbrev MK := List Char → Caps → Option (List Char × Caps)

/-- Try the continuation after consuming lo + i characters, then lo + i - 1,
…, down to lo characters: the greedy order of a bounded quantifier. -/
def tryDesc (k : MK) (caps : Caps) (s : List Char) (lo : Nat) : Nat → Option (List Char × Caps)
  | 0 => k (s.drop lo) caps
  | i + 1 =>
    match k (s.drop (lo + i + 1)) caps with
    | some r => some r
    | none => tryDesc k caps s lo i

/-- The backtracking matcher.  `mml r s caps k` tries to match `r` at the
start of `s` and, for each way of doing so in Python's preference order,
calls the continuation `k` with the remaining input; the first success
wins, reproducing leftmost greedy-with-backtracking semantics. -/
def mml : RE → List Char → Caps → MK → Option (List Char × Caps)
  | .eps, s, caps, k => k s caps
  | .ch c, s, caps, k =>
    match s with
    | [] => none
    | c' :: s' => if c' = c then k s' caps else none
  | .chI c, s, caps, k =>
    match s with
    | [] => none
    | c' :: s' => if c'.toLower = c.toLower then k s' caps else none
  | .cls p, s, caps, k =>
    match s with
    | [] => none
    | c' :: s' => if p c' then k s' caps else none
  | .cat a b, s, caps, k => mml a s caps (fun s' caps' => mml b s' caps' k)
  | .alt a b, s, caps, k =>
    match mml a s caps k with
    | some r => some r
    | none => mml b s caps k
  | .opt a, s, caps, k =>
    match mml a s caps k with
    | some r => some r
    | none => k s caps
  | .rep p n, s, caps, k =>
    if n ≤ s.length ∧ (s.take n).all p then k (s.drop n) caps else none
  | .plus p, s, caps, k =>
    let m := (s.takeWhile p).length
    if m = 0 then none else tryDesc k caps s 1 (m - 1)
  | .star p, s, caps, k => tryDesc k caps s 0 (s.takeWhile p).length
  | .group i a, s, caps, k =>
    mml a s caps (fun s' caps' => k s' ((i, s.take (s.length - s'.length)) :: caps'))

/-- Match a pattern at the very start of the input; on success return the
rest of the input after the match together with the captures. -/
def matchAt (r : RE) (s : List Char) : Option (List Char × Caps) :=
  mml r s [] (fun rest caps => some (rest, caps))

/-- Python re.search: the leftmost position where the pattern matches. -/
def searchRE (r : RE) : List Char → Option (List Char × Caps)
  | [] => matchAt r []
  | c :: s =>
    match matchAt r (c :: s) with
    | some v => some v
    | none => searchRE r (c :: s).tail

/-- Scanning worker of finditer, structurally recursive on a fuel bound
that dominates the length of the input (each recursive call strictly
shortens the input, so any fuel of at least length plus one realises the
untruncated scan). -/
def finditerAux (r : RE) : Nat → List Char → List Caps
  | 0, _ => []
  | _ + 1, [] =>
    match matchAt r [] with
    | some (_, caps) => [caps]
    | none => []
  | fuel + 1, c :: s' =>
    match matchAt r (c :: s') with
    | some (rest, caps) =>
      if rest.length < s'.length + 1 then caps :: finditerAux r fuel rest
      else caps :: finditerAux r fuel s'
    | none => finditerAux r fuel s'

/-- Python re.finditer: all non-overlapping matches, scanning left to
right and resuming after each match (advancing one position after an
empty match).  Only the captures of each match are retained. -/
def finditer (r : RE) (s : List Char) : List Caps :=
  finditerAux r (s.length + 1) s

/-! ## Pattern construction helpers -/

/-- Concatenation of a list of patterns. -/
def catL (rs : List RE) : RE := rs.foldr RE.cat RE.eps

/-- A literal string as a pattern. -/
def strL (s : String) : RE := catL (s.data.map RE.ch)

/-- A literal string matched case-insensitively (IGNORECASE patterns). -/
def strLI (s : String) : RE := catL (s.data.map RE.chI)

/-! ## The compiled patterns of KafkaPerformanceParser

Transcribed from the class constants of scripts/parse_perf_logs.py.
Group numbers follow the order of opening parentheses in the source. -/

/-- Shared required prefix of the producer patterns: group 1 records sent,
group 2 records/sec, group 3 MB/sec, group 4 avg latency, group 5 max
latency.  This text is written identically in PRODUCER_FINAL_PATTERN and
PRODUCER_PROGRESS_PATTERN in the source. -/
def producerCore : RE := catL [
  .group 1 (.plus isDig), .plus isSpc, strL "records sent,", .plus isSpc,
  .group 2 (.plus isDigDot), .plus isSpc, strL "records/sec", .plus isSpc, .ch '(',
  .group 3 (.plus isDigDot), .plus isSpc, strL "MB/sec),", .plus isSpc,
  .group 4 (.plus isDigDot), .plus isSpc, strL "ms avg latency,", .plus isSpc,
  .group 5 (.plus isDigDot), .plus isSpc, strL "ms max latency"]

/-- One optional percentile suffix of the final-summary pattern: a comma,
whitespace, a captured integer, whitespace and the percentile label. -/
def percOpt (i : Nat) (label : String) : RE :=
  .opt (catL [.ch ',', .plus isSpc, .group i (.plus isDig), .plus isSpc, strL label])

/-- The four independent optional percentile groups 6, 7, 8 and 9 of
PRODUCER_FINAL_PATTERN. -/
def producerPercs : RE := catL [
  percOpt 6 "ms 50th", percOpt 7 "ms 95th",
  percOpt 8 "ms 99th", percOpt 9 "ms 99.9th"]

/-- PRODUCER_FINAL_PATTERN : the required summary prefix followed by the
four optional percentile groups. -/
def producerFinalPat : RE := .cat producerCore producerPercs

/-- PRODUCER_PROGRESS_PATTERN : the same required prefix terminated by a
literal full stop, no percentile groups. -/
def producerProgressPat : RE := .cat producerCore (.ch '.')

/-- Timestamp fragment of CONSUMER_PATTERN: four digits, hyphen, two
digits, hyphen, two digits, whitespace, then three colon-separated pairs
of digits and a final three-digit millisecond field. -/
def tsFrag : RE := catL [
  .rep isDig 4, .ch '-', .rep isDig 2, .ch '-', .rep isDig 2, .plus isSpc,
  .rep isDig 2, .ch ':', .rep isDig 2, .ch ':', .rep isDig 2, .ch ':', .rep isDig 3]

/-- CONSUMER_PATTERN : the positional comma-separated consumer line with
ten capturing groups. -/
def consumerPat : RE := catL [
  .group 1 tsFrag, .ch ',', .star isSpc,
  .group 2 tsFrag, .ch ',', .star isSpc,
  .group 3 (.plus isDigDot), .ch ',', .star isSpc,
  .group 4 (.plus isDigDot), .ch ',', .star isSpc,
  .group 5 (.plus isDig), .ch ',', .star isSpc,
  .group 6 (.plus isDigDot), .ch ',', .star isSpc,
  .group 7 (.plus isDig), .ch ',', .star isSpc,
  .group 8 (.plus isDig), .ch ',', .star isSpc,
  .group 9 (.plus isDigDot), .ch ',', .star isSpc,
  .group 10 (.plus isDigDot)]

/-- Header comment pattern with a labelled free-text payload, the common
shape of CONFIG_PATTERN, TEST_RUN_PATTERN, HOST_PATTERN and DATE_PATTERN:
a hash, optional whitespace, the label, optional whitespace and a
captured run of non-newline characters. -/
def hashTextPat (label : String) : RE :=
  catL [.ch '#', .star isSpc, strL label, .star isSpc, .group 1 (.plus isNotNl)]

/-- Header comment pattern with a labelled integer payload, the shape of
RECORD_SIZE_PATTERN and NUM_RECORDS_PATTERN. -/
def hashNumPat (label : String) : RE :=
  catL [.ch '#', .star isSpc, strL label, .star isSpc, .group 1 (.plus isDig)]

/-- SCENARIO_PATTERN : a hash, optional whitespace, the word Producer or
Consumer, a space, an optional Performance label, the word Test, a
hyphen surrounded by optional whitespace and the captured scenario text. -/
def scenarioPat : RE := catL [
  .ch '#', .star isSpc, .alt (strL "Producer") (strL "Consumer"), .ch ' ',
  .opt (strL "Performance "), strL "Test", .star isSpc, .ch '-', .star isSpc,
  .group 1 (.plus isNotNl)]

/-- Filename sub-pattern keyed by a case-insensitive keyword followed by
an optional underscore-or-hyphen separator and a captured token of the
given class (used for acks with word characters and for batch, linger,
size, fetch and poll with digits). -/
def fnameKeyPat (kw : String) (p : Char → Bool) : RE :=
  catL [strLI kw, .opt (.cls isSep), .group 1 (.plus p)]

/-- Filename compression pattern: one of the five codec names, captured. -/
def fnameCompressionPat : RE :=
  .group 1 (.alt (strLI "none") (.alt (strLI "snappy")
    (.alt (strLI "lz4") (.alt (strLI "zstd") (strLI "gzip")))))

/-! ## Number and string helpers (Python int, float, strip, split) -/

/-- Value of a run of ASCII digits, as Python int reads it. -/
def natOfDigits (l : List Char) : Nat :=
  l.foldl (fun n c => 10 * n + (c.toNat - 48)) 0

/-- Python int applied to a captured digit string. -/
def intOfDigits (l : List Char) : Int := (natOfDigits l : Int)

/-- Python float applied to a decimal literal made of digits and at most
one full stop (the only shape the guarded call sites can pass; on other
shapes Python float raises, which no embedded claim exercises). -/
def decOfChars (l : List Char) : ℚ :=
  let ip := l.takeWhile (fun c => c ≠ '.')
  let fp := (l.dropWhile (fun c => c ≠ '.')).drop 1
  (natOfDigits ip : ℚ) + (natOfDigits fp : ℚ) / (10 : ℚ) ^ fp.length

/-- Characters captured by a group, when the group participated in the
match (Python match.group(i) returning None otherwise). -/
def groupChars (caps : Caps) (i : Nat) : Option (List Char) := caps.lookup i

/-- Captured text of a mandatory group (always present on a successful
match of the patterns that use this accessor). -/
def gStr (caps : Caps) (i : Nat) : List Char := (groupChars caps i).getD []

/-- Python int of a mandatory group. -/
def intOfGroup (caps : Caps) (i : Nat) : Int := intOfDigits (gStr caps i)

/-- Python float of a mandatory group. -/
def ratOfGroup (caps : Caps) (i : Nat) : ℚ := decOfChars (gStr caps i)

/-- Transcription of the source idiom int(match.group(i)) if
match.group(i) else None : an absent group, or an empty capture, gives
null; otherwise the captured integer. -/
def optIntOfGroup (caps : Caps) (i : Nat) : Option Int :=
  match groupChars caps i with
  | some l => if l.isEmpty then none else some (intOfDigits l)
  | none => none

/-- Python str.strip with no arguments: remove leading and trailing
whitespace. -/
def pstrip (l : List Char) : List Char :=
  ((l.dropWhile isSpc).reverse.dropWhile isSpc).reverse

/-- Python str.startswith on character lists. -/
def startsWithL (l : List Char) (p : String) : Bool := p.data.isPrefixOf l

/-- Python str.split with an explicit one-character separator: splits at
every occurrence, keeping empty fields. -/
def splitOnChar (sep : Char) : List Char → List (List Char)
  | [] => [[]]
  | c :: rest =>
    match splitOnChar sep rest with
    | [] => [[c]]
    | g :: gs => if c = sep then [] :: g :: gs else (c :: g) :: gs

/-! ## Metric records (parse_producer_log / parse_consumer_log) -/

/-- Producer metrics dictionary built by parse_producer_log.  Numeric
values are modelled as integers and rationals; the four percentile
fields are nullable. -/
structure ProducerMetrics where
  records_sent : Int
  throughput_rps : ℚ
  throughput_mb : ℚ
  avg_latency_ms : ℚ
  max_latency_ms : ℚ
  p50_ms : Option Int
  p95_ms : Option Int
  p99_ms : Option Int
  p999_ms : Option Int
deriving DecidableEq, Repr

/-- Metrics built from a final-summary match: groups 1 to 5 mandatory,
groups 6 to 9 each null when its group did not participate. -/
def finalMetricsOf (caps : Caps) : ProducerMetrics :=
  ⟨intOfGroup caps 1, ratOfGroup caps 2, ratOfGroup caps 3,
   ratOfGroup caps 4, ratOfGroup caps 5,
   optIntOfGroup caps 6, optIntOfGroup caps 7,
   optIntOfGroup caps 8, optIntOfGroup caps 9⟩

/-- Metrics built from a progress-line match: all percentiles null. -/
def progressMetricsOf (caps : Caps) : ProducerMetrics :=
  ⟨intOfGroup caps 1, ratOfGroup caps 2, ratOfGroup caps 3,
   ratOfGroup caps 4, ratOfGroup caps 5, none, none, none, none⟩

/-- Metric part of parse_producer_log: all final-summary matches are
collected and the last one wins; with none, the progress pattern is
tried the same way; with neither, no record is produced. -/
def parseProducerMetrics (content : String) : Option ProducerMetrics :=
  match (finditer producerFinalPat content.data).getLast? with
  | some caps => some (finalMetricsOf caps)
  | none =>
    match (finditer producerProgressPat content.data).getLast? with
    | some caps => some (progressMetricsOf caps)
    | none => none

/-- Consumer metrics dictionary built by parse_consumer_log, fields in
the positional order of the ten capturing groups. -/
structure ConsumerMetrics where
  start_time : String
  end_time : String
  data_consumed_mb : ℚ
  throughput_mb_sec : ℚ
  num_messages : Int
  throughput_msg_sec : ℚ
  rebalance_time_ms : Int
  fetch_time_ms : Int
  fetch_mb_sec : ℚ
  fetch_msg_sec : ℚ
deriving DecidableEq, Repr

/-- Consumer metrics from the ten groups of a consumer-pattern match. -/
def consumerMetricsOf (caps : Caps) : ConsumerMetrics :=
  ⟨String.mk (gStr caps 1), String.mk (gStr caps 2),
   ratOfGroup caps 3, ratOfGroup caps 4, intOfGroup caps 5,
   ratOfGroup caps 6, intOfGroup caps 7, intOfGroup caps 8,
   ratOfGroup caps 9, ratOfGroup caps 10⟩

/-- Skip test of the consumer line loop: the CSV header line, a comment
line, or a blank line (tested on the stripped line, in this order). -/
def skipConsumerLine (l : List Char) : Bool :=
  startsWithL l "start.time" || startsWithL l "#" || l.isEmpty

/-- Line loop of parse_consumer_log: strip each line, skip header,
comment and blank lines, and return the metrics of the first line where
the consumer pattern matches. -/
def consumerScan : List (List Char) → Option ConsumerMetrics
  | [] => none
  | line :: rest =>
    let l := pstrip line
    if skipConsumerLine l then consumerScan rest
    else
      match searchRE consumerPat l with
      | some (_, caps) => some (consumerMetricsOf caps)
      | none => consumerScan rest

/-- Metric part of parse_consumer_log: split the content on newlines and
scan; an empty metrics dictionary at the end means no record. -/
def parseConsumerMetrics (content : String) : Option ConsumerMetrics :=
  consumerScan (splitOnChar '\n' content.data)

/-! ## Configuration maps (Python dictionaries with scalar values) -/

/-- Scalar configuration value: the tagged union of the types the
extraction can coerce to. -/
inductive ConfigVal where
  | vInt (i : Int)
  | vRat (q : ℚ)
  | vStr (s : String)
deriving DecidableEq, Repr

/-- Configuration dictionary in insertion order. -/
abbrev Config := List (String × ConfigVal)

/-- Python dictionary assignment: replace the binding of an existing key
in place, otherwise append the new binding at the end. -/
def dictSet : Config → String → ConfigVal → Config
  | [], k, v => [(k, v)]
  | (k', v') :: rest, k, v =>
    if k' = k then (k, v) :: rest else (k', v') :: dictSet rest k v

/-- Python dict.update: assign every binding of the second dictionary
into the first, in order. -/
def dictUpdate (c : Config) (f : Config) : Config :=
  f.foldl (fun acc kv => dictSet acc kv.1 kv.2) c

/-- Python dict.get. -/
def cfgGet (cfg : Config) (k : String) : Option ConfigVal := cfg.lookup k

/-- Conditional assignment from a pattern search, the repeated idiom of
_extract_config_from_content: when the pattern matches somewhere in the
content, store the derived value under the key. -/
def setFromSearch (cfg : Config) (pat : RE) (content : List Char) (key : String)
    (f : Caps → ConfigVal) : Config :=
  match searchRE pat content with
  | some (_, caps) => dictSet cfg key (f caps)
  | none => cfg

/-- Stripped text of group 1 as a string value. -/
def stripStrVal (caps : Caps) : ConfigVal := .vStr (String.mk (pstrip (gStr caps 1)))

/-- Integer value of group 1. -/
def intVal (caps : Caps) : ConfigVal := .vInt (intOfGroup caps 1)

/-- Python str.isdigit: nonempty and all digits. -/
def pyIsdigit (l : List Char) : Bool := !l.isEmpty && l.all isDig

/-- Value coercion of the Configuration header items: all-digit text
becomes an integer; text whose dot-free form is all digits becomes a
float when the literal is well formed (at most one dot — otherwise
Python float raises ValueError, the except clause swallows it and the
text stays a string); anything else stays a string. -/
def coerceContentVal (v : List Char) : ConfigVal :=
  if pyIsdigit v then .vInt (intOfDigits v)
  else if pyIsdigit (v.filter (fun c => c ≠ '.')) then
    if (v.filter (fun c => c = '.')).length ≤ 1 then .vRat (decOfChars v)
    else .vStr (String.mk v)
  else .vStr (String.mk v)

/-- Key-value loop over the Configuration header payload: split on
commas, strip each item, and for items containing an equals sign split
at the first one, strip and normalise the key (dots to underscores),
strip and coerce the value, and assign. -/
def parseConfigItems (cfg : Config) (items : List (List Char)) : Config :=
  items.foldl (fun c item =>
    let it := pstrip item
    if it.contains '=' then
      let key := pstrip (it.takeWhile (fun c => c ≠ '='))
      let nkey := String.mk (key.map (fun c => if c = '.' then '_' else c))
      let val := pstrip ((it.dropWhile (fun c => c ≠ '=')).drop 1)
      dictSet c nkey (coerceContentVal val)
    else c) cfg

/-- Transcription of _extract_config_from_content: the six labelled
single-field patterns in source order, then the Configuration key-value
payload. -/
def extractConfigFromContent (content : String) : Config :=
  let cs := content.data
  let c1 := setFromSearch [] scenarioPat cs "scenario" stripStrVal
  let c2 := setFromSearch c1 (hashTextPat "Test Run:") cs "test_run" stripStrVal
  let c3 := setFromSearch c2 (hashTextPat "Host:") cs "host" stripStrVal
  let c4 := setFromSearch c3 (hashTextPat "Date:") cs "date" stripStrVal
  let c5 := setFromSearch c4 (hashNumPat "Record Size:") cs "record_size" intVal
  let c6 := setFromSearch c5 (hashNumPat "Num Records:") cs "num_records" intVal
  match searchRE (hashTextPat "Configuration:") cs with
  | some (_, caps) => parseConfigItems c6 (splitOnChar ',' (gStr caps 1))
  | none => c6

/-- Filename value coercion: all-digit captures become integers. -/
def coerceFnameVal (v : List Char) : ConfigVal :=
  if pyIsdigit v then .vInt (intOfDigits v) else .vStr (String.mk v)

/-- The fixed filename sub-patterns of _extract_config_from_filename, in
the insertion order of the source dictionary. -/
def fnamePatterns : List (String × RE) := [
  ("acks", fnameKeyPat "acks" isWrd),
  ("batch", fnameKeyPat "batch" isDig),
  ("linger", fnameKeyPat "linger" isDig),
  ("size", fnameKeyPat "size" isDig),
  ("compression", fnameCompressionPat),
  ("fetch", fnameKeyPat "fetch" isDig),
  ("poll", fnameKeyPat "poll" isDig)]

/-- Transcription of _extract_config_from_filename, applied to the
filename stem: each sub-pattern that matches stores its coerced capture;
then, when the first underscore-delimited segment equals the test type,
the second segment is stored as the scenario. -/
def extractConfigFromFilename (stem : String) (testType : String) : Config :=
  let cs := stem.data
  let cfg := fnamePatterns.foldl (fun c kp =>
    match searchRE kp.2 cs with
    | some (_, caps) => dictSet c kp.1 (coerceFnameVal (gStr caps 1))
    | none => c) []
  let parts := splitOnChar '_' cs
  if parts.length ≥ 2 ∧ parts.headD [] = testType.data then
    dictSet cfg "scenario" (.vStr (String.mk (parts.getD 1 [])))
  else cfg

/-- Configuration of one log file: the content-derived map updated with
the filename-derived map (lines 117 to 118 and 186 to 187 of
parse_perf_logs.py). -/
def mergedConfig (content stem testType : String) : Config :=
  dictUpdate (extractConfigFromContent content) (extractConfigFromFilename stem testType)

/-- Record produced by parse_producer_log (provenance fields that only
echo the file path and the wall clock are omitted). -/
structure ProducerRecord where
  test_type : String
  scenario : ConfigVal
  configuration : Config
  metrics : ProducerMetrics
deriving DecidableEq, Repr

/-- parse_producer_log: merge the two configuration sources, extract the
metrics, and return no record when neither producer pattern matched. -/
def parseProducerLog (content stem : String) : Option ProducerRecord :=
  let config := mergedConfig content stem "producer"
  match parseProducerMetrics content with
  | some ms =>
    some ⟨"producer", (cfgGet config "scenario").getD (.vStr "unknown"), config, ms⟩
  | none => none

/-- Record produced by parse_consumer_log. -/
structure ConsumerRecord where
  test_type : String
  scenario : ConfigVal
  configuration : Config
  metrics : ConsumerMetrics
deriving DecidableEq, Repr

/-- parse_consumer_log: merge the two configuration sources, scan the
lines for consumer metrics, and return no record when no line matched. -/
def parseConsumerLog (content stem : String) : Option ConsumerRecord :=
  let config := mergedConfig content stem "consumer"
  match parseConsumerMetrics content with
  | some ms =>
    some ⟨"consumer", (cfgGet config "scenario").getD (.vStr "unknown"), config, ms⟩
  | none => none

/-! ## Aggregation engine (aggregate_results.py) -/

/-- The relevant grouping keys of _config_to_key, in source order. -/
def relevantKeys : List String := [
  "acks", "batch_size", "linger_ms", "compression_type",
  "compression", "record_size", "fetch_min_bytes",
  "max_poll_records", "num_producers", "num_consumers"]

/-- Lexicographic comparison of character lists by code point, the order
Python sorted uses on strings. -/
def lexLe (a b : List Char) : Bool :=
  match a, b with
  | [], _ => true
  | _ :: _, [] => false
  | c :: as, d :: bs =>
    if c.toNat < d.toNat then true
    else if d.toNat < c.toNat then false
    else lexLe as bs

/-- Python string comparison. -/
def strLe (a b : String) : Bool := lexLe a.data b.data

/-- Python sorted(relevant_keys): lexicographic by code point. -/
def sortedRelevantKeys : List String :=
  relevantKeys.insertionSort (fun a b => strLe a b = true)

/-- Python str() of a configuration value, used when rendering the group
key.  A rational renders as a fraction rather than as Python float repr;
no claim under study depends on the float rendering, only on rendering
being a function of the value. -/
def valueRepr : ConfigVal → String
  | .vInt i => toString i
  | .vRat q => toString q
  | .vStr s => s

/-- Transcription of _config_to_key: the key equals value parts of the
present relevant fields in sorted key order joined with a vertical bar,
or the sentinel default when no relevant field is present. -/
def configToKey (config : Config) : String :=
  let parts := sortedRelevantKeys.filterMap (fun k =>
    (cfgGet config k).map (fun v => k ++ "=" ++ valueRepr v))
  if parts.isEmpty then "default" else String.intercalate "|" parts

/-- Producer metric fields consulted by aggregate_producer_results, each
nullable (a JSON null and a missing key both read back as None through
dict.get). -/
structure PAggMetrics where
  throughput_mb : Option ℚ
  throughput_rps : Option ℚ
  avg_latency_ms : Option ℚ
  p99_ms : Option ℚ
deriving DecidableEq, Repr

/-- Consumer metric fields consulted by aggregate_consumer_results. -/
structure CAggMetrics where
  throughput_mb_sec : Option ℚ
  throughput_msg_sec : Option ℚ
  rebalance_time_ms : Option ℚ
deriving DecidableEq, Repr

/-- The comprehension shape with a truthiness guard: the value of m.get
for every metrics dictionary where that value is truthy, so null and
zero are both dropped. -/
def truthyVals {α : Type} (get : α → Option ℚ) (ms : List α) : List ℚ :=
  ms.filterMap (fun m =>
    match get m with
    | some v => if v = 0 then none else some v
    | none => none)

/-- The comprehension shape guarded by is-not-None: the value of m.get
for every metrics dictionary where the field is present, zero included. -/
def presentVals {α : Type} (get : α → Option ℚ) (ms : List α) : List ℚ :=
  ms.filterMap get

/-- Line 149 of aggregate_results.py. -/
def producerThroughputMbList (ms : List PAggMetrics) : List ℚ :=
  truthyVals (fun m => m.throughput_mb) ms

/-- Line 150 of aggregate_results.py. -/
def producerThroughputRpsList (ms : List PAggMetrics) : List ℚ :=
  truthyVals (fun m => m.throughput_rps) ms

/-- Line 151 of aggregate_results.py. -/
def producerAvgLatencyList (ms : List PAggMetrics) : List ℚ :=
  truthyVals (fun m => m.avg_latency_ms) ms

/-- Line 152 of aggregate_results.py. -/
def producerP99List (ms : List PAggMetrics) : List ℚ :=
  truthyVals (fun m => m.p99_ms) ms

/-- Line 192 of aggregate_results.py. -/
def consumerThroughputMbList (ms : List CAggMetrics) : List ℚ :=
  truthyVals (fun m => m.throughput_mb_sec) ms

/-- Line 193 of aggregate_results.py. -/
def consumerThroughputMsgList (ms : List CAggMetrics) : List ℚ :=
  truthyVals (fun m => m.throughput_msg_sec) ms

/-- Line 194 of aggregate_results.py: the guard is is-not-None, so a
zero rebalance time is kept, unlike every other metric list. -/
def consumerRebalanceList (ms : List CAggMetrics) : List ℚ :=
  presentVals (fun m => m.rebalance_time_ms) ms

/-! ## Statistics (_calc_stats, numpy semantics over exact rationals) -/

/-- Ascending sort, as numpy percentile performs internally. -/
def npSorted (l : List ℚ) : List ℚ := l.insertionSort (· ≤ ·)

/-- numpy min of a nonempty array (zero as the irrelevant empty default,
_calc_stats never reaches it with an empty list). -/
def npMin : List ℚ → ℚ
  | [] => 0
  | x :: xs => xs.foldl min x

/-- numpy max of a nonempty array. -/
def npMax : List ℚ → ℚ
  | [] => 0
  | x :: xs => xs.foldl max x

/-- numpy mean: the arithmetic mean. -/
def listMean (l : List ℚ) : ℚ := l.sum / l.length

/-- Population variance, divisor N: the square of numpy std with its
default ddof of zero.  The source stores the square root; the square
determines it on the nonnegative reals, and no claim under study
consults std. -/
def listVar (l : List ℚ) : ℚ := listMean (l.map (fun x => (x - listMean l) ^ 2))

/-- numpy percentile with the default linear interpolation: the
fractional position q of the way along the sorted values. -/
def percentile (q : ℚ) (l : List ℚ) : ℚ :=
  let a := npSorted l
  let n := a.length
  let pos := q * ((n : ℚ) - 1) / 100
  let i := (⌊pos⌋).toNat
  let j := min (i + 1) (n - 1)
  a.getD i 0 + Int.fract pos * (a.getD j 0 - a.getD i 0)

/-- Interpolation kernel of the percentile: the value the fractional
position pos of the way along the sorted array a (percentile q of l is
this kernel at a = npSorted l and pos = q (n - 1) / 100). -/
def interpAt (a : List ℚ) (pos : ℚ) : ℚ :=
  a.getD ((⌊pos⌋).toNat) 0 +
    Int.fract pos *
      (a.getD (min ((⌊pos⌋).toNat + 1) (a.length - 1)) 0 - a.getD ((⌊pos⌋).toNat) 0)

/-- The statistics dictionary of _calc_stats for a nonempty input (std
represented by its square, see listVar). -/
structure StatSummary where
  mean : ℚ
  varN : ℚ
  min : ℚ
  max : ℚ
  p50 : ℚ
  p95 : ℚ
  p99 : ℚ
  count : Nat
deriving DecidableEq, Repr

/-- Transcription of _calc_stats: the all-null dictionary with count
zero is modelled as none; otherwise every summary field is computed over
the full value list. -/
def calcStats (values : List ℚ) : Option StatSummary :=
  if values.isEmpty then none
  else some ⟨listMean values, listVar values, npMin values, npMax values,
    percentile 50 values, percentile 95 values, percentile 99 values,
    values.length⟩

/-! ## Scoring engine (generate_excel_report.py) -/

/-- Columns of the producer dataframe consulted by _calculate_all_scores
and by the durability selection of create_recommendations_sheet: acks as
a string, the throughput, average latency and p99 columns as numbers.
The remaining dataframe columns never enter the scoring formulas. -/
structure ProdRow where
  acks : String
  throughput_mb : ℚ
  avg_latency_ms : ℚ
  p99_ms : ℚ
deriving DecidableEq, Repr

/-- pandas column max over the dataframe rows. -/
def colMax (f : ProdRow → ℚ) (rows : List ProdRow) : ℚ := npMax (rows.map f)

/-- Line 236: the throughput normaliser is the column max when that max
is positive and one otherwise. -/
def maxThroughputNorm (rows : List ProdRow) : ℚ :=
  if colMax (fun r => r.throughput_mb) rows > 0 then
    colMax (fun r => r.throughput_mb) rows
  else 1

/-- Line 237: the latency normaliser, built the same way. -/
def maxLatencyNorm (rows : List ProdRow) : ℚ :=
  if colMax (fun r => r.avg_latency_ms) rows > 0 then
    colMax (fun r => r.avg_latency_ms) rows
  else 1

/-- Line 240. -/
def throughputScore (rows : List ProdRow) (r : ProdRow) : ℚ :=
  r.throughput_mb / maxThroughputNorm rows * 100

/-- Line 241. -/
def latencyScore (rows : List ProdRow) (r : ProdRow) : ℚ :=
  100 - r.avg_latency_ms / maxLatencyNorm rows * 100

/-- Lines 244 to 248: the p99 over average ratio penalty, floored at
zero, with a fixed fifty for rows without positive average latency. -/
def consistencyScore (r : ProdRow) : ℚ :=
  if r.avg_latency_ms > 0 then
    max 0 (100 - (r.p99_ms / r.avg_latency_ms - 1) * 50)
  else 50

/-- Lines 252 to 256. -/
def scoreMaxThroughput (rows : List ProdRow) (r : ProdRow) : ℚ :=
  0.4 * throughputScore rows r + 0.2 * latencyScore rows r + 0.4 * consistencyScore r

/-- Lines 259 to 263. -/
def scoreBalanced (rows : List ProdRow) (r : ProdRow) : ℚ :=
  0.3 * throughputScore rows r + 0.35 * latencyScore rows r + 0.35 * consistencyScore r

/-- Lines 266 to 270. -/
def scoreDurability (rows : List ProdRow) (r : ProdRow) : ℚ :=
  0.2 * throughputScore rows r + 0.35 * latencyScore rows r + 0.45 * consistencyScore r

/-- pandas Series idxmax followed by loc: the first row attaining the
maximum of the scored column, none on an empty frame. -/
def idxmaxBy {α : Type} (f : α → ℚ) : List α → Option α
  | [] => none
  | x :: xs => some (xs.foldl (fun best y => if f y > f best then y else best) x)

/-- Line 2310: the durability candidates, the rows whose acks string
equals all or -1. -/
def durableRows (rows : List ProdRow) : List ProdRow :=
  rows.filter (fun r => r.acks == "all" || r.acks == "-1")

/-- Lines 2310 to 2313: the durability recommendation, the first
candidate attaining the maximum durability score (scores computed over
the full dataframe). -/
def bestDurable (rows : List ProdRow) : Option ProdRow :=
  idxmaxBy (scoreDurability rows) (durableRows rows)

/-! ## Helper lemmas -/

/-- The truthiness-guarded comprehension keeps exactly the present,
nonzero values. -/
theorem truthyVals_eq {α : Type} (get : α → Option ℚ) (ms : List α) :
    truthyVals get ms = (ms.filterMap get).filter (fun v => v != 0) := by
  induction ms with
  | nil => rfl
  | cons m tl ih =>
    simp only [truthyVals, List.filterMap_cons] at *
    cases hg : get m with
    | none => simpa using ih
    | some v =>
      by_cases hv : v = 0 <;> simp [hv, List.filter_cons, ih]

/-! ## Claims -/

/-- C2: the group key of _config_to_key is determined by the lookups of
the ten relevant configuration fields alone — two configurations that
agree on every relevant field (present or absent alike) map to the same
key, so fields outside the relevant set never affect the key — and a
configuration with no relevant field present yields the sentinel key
default. -/
theorem c2_configToKey_determined :
    (∀ c1 c2 : Config, (∀ k ∈ relevantKeys, cfgGet c1 k = cfgGet c2 k) →
      configToKey c1 = configToKey c2) ∧
    (∀ c : Config, (∀ k ∈ relevantKeys, cfgGet c k = none) →
      configToKey c = "default") := by
  have hsub : ∀ k ∈ sortedRelevantKeys, k ∈ relevantKeys := by decide
  constructor
  · intro c1 c2 h
    unfold configToKey
    have : sortedRelevantKeys.filterMap (fun k => (cfgGet c1 k).map (fun v => k ++ "=" ++ valueRepr v))
        = sortedRelevantKeys.filterMap (fun k => (cfgGet c2 k).map (fun v => k ++ "=" ++ valueRepr v)) := by
      apply List.filterMap_congr
      intro k hk
      rw [h k (hsub k hk)]
    rw [this]
  · intro c h
    unfold configToKey
    have : sortedRelevantKeys.filterMap (fun k => (cfgGet c k).map (fun v => k ++ "=" ++ valueRepr v)) = [] := by
      rw [List.filterMap_eq_nil]
      intro k hk
      rw [h k (hsub k hk)]
      rfl
    simp [this]

/-- Witness for C2 at concrete configurations: agreement on the relevant
fields despite different irrelevant fields gives equal keys, and a
configuration with only irrelevant fields gets the default key. -/
theorem c2_configToKey_determined_wit :
    configToKey [("acks", .vStr "all"), ("zzz", .vInt 7)]
      = configToKey [("other", .vInt 1), ("acks", .vStr "all")] ∧
    configToKey [("zzz", .vInt 7)] = "default" :=
  ⟨c2_configToKey_determined.1 _ _ (by decide),
   c2_configToKey_determined.2 _ (by decide)⟩

/-- C3 counterexample: the claim states that every tracked metric list
excludes records with a falsy value, uniformly; but the consumer
rebalance-time list is guarded by is-not-None in the source, so a record
with a legitimate zero rebalance time does contribute. -/
theorem c3_zero_filter_cex :
    consumerRebalanceList [⟨some 1, some 1, some 0⟩] = [0] ∧
    consumerRebalanceList [⟨some 1, some 1, some 0⟩] ≠ [] := by
  constructor <;> decide

/-- C3 amended: the four producer metric lists and the two consumer
throughput lists keep exactly the present nonzero values (so a record
with a falsy value — null, missing or zero — contributes nothing), while
the consumer rebalance-time list keeps every present value, zero
included, excluding only null or missing ones. -/
theorem c3_zero_filter_amended :
    (∀ ms : List PAggMetrics,
      producerThroughputMbList ms = (ms.filterMap (fun m => m.throughput_mb)).filter (fun v => v != 0) ∧
      producerThroughputRpsList ms = (ms.filterMap (fun m => m.throughput_rps)).filter (fun v => v != 0) ∧
      producerAvgLatencyList ms = (ms.filterMap (fun m => m.avg_latency_ms)).filter (fun v => v != 0) ∧
      producerP99List ms = (ms.filterMap (fun m => m.p99_ms)).filter (fun v => v != 0)) ∧
    (∀ ms : List CAggMetrics,
      consumerThroughputMbList ms = (ms.filterMap (fun m => m.throughput_mb_sec)).filter (fun v => v != 0) ∧
      consumerThroughputMsgList ms = (ms.filterMap (fun m => m.throughput_msg_sec)).filter (fun v => v != 0) ∧
      consumerRebalanceList ms = ms.filterMap (fun m => m.rebalance_time_ms)) := by
  constructor
  · intro ms
    exact ⟨truthyVals_eq _ ms, truthyVals_eq _ ms, truthyVals_eq _ ms, truthyVals_eq _ ms⟩
  · intro ms
    exact ⟨truthyVals_eq _ ms, truthyVals_eq _ ms, rfl⟩

/-- The running best of the idxmax fold is one of the inspected rows. -/
theorem foldl_best_mem {α : Type} (f : α → ℚ) :
    ∀ (xs : List α) (x : α),
      xs.foldl (fun best y => if f y > f best then y else best) x ∈ x :: xs := by
  intro xs
  induction xs with
  | nil => intro x; simp
  | cons z zs ih =>
    intro x
    simp only [List.foldl_cons]
    rcases List.mem_cons.mp (ih (if f z > f x then z else x)) with he | hm
    · rw [he]
      split <;> simp
    · exact List.mem_cons_of_mem _ (List.mem_cons_of_mem _ hm)

/-- The running best of the idxmax fold dominates every inspected row. -/
theorem foldl_best_le {α : Type} (f : α → ℚ) :
    ∀ (xs : List α) (x y : α), y ∈ x :: xs →
      f y ≤ f (xs.foldl (fun best y => if f y > f best then y else best) x) := by
  intro xs
  induction xs with
  | nil =>
    intro x y hy
    rcases List.mem_cons.mp hy with h | h
    · subst h; simp
    · simp at h
  | cons z zs ih =>
    intro x y hy
    simp only [List.foldl_cons]
    have hx : f x ≤ f (if f z > f x then z else x) := by
      split
      · next hc => exact le_of_lt hc
      · exact le_refl _
    have hz : f z ≤ f (if f z > f x then z else x) := by
      split
      · exact le_refl _
      · next hc => exact le_of_not_lt hc
    rcases List.mem_cons.mp hy with h | h
    · subst h; exact le_trans hx (ih _ _ (List.mem_cons_self _ _))
    · rcases List.mem_cons.mp h with h2 | h2
      · subst h2; exact le_trans hz (ih _ _ (List.mem_cons_self _ _))
      · exact ih _ y (List.mem_cons_of_mem _ h2)

/-- C4 counterexample: with a single record whose throughput is one
half, the normaliser of the code is one half while the maximum floored
at one would be one, so the claimed floor-of-one normaliser is not what
_calculate_all_scores computes. -/
theorem c4_scoring_norm_cex :
    maxThroughputNorm [⟨"1", 1/2, 1/2, 1⟩]
        ≠ max (colMax (fun r => r.throughput_mb) [⟨"1", 1/2, 1/2, 1⟩]) 1 ∧
    maxThroughputNorm [⟨"1", 1/2, 1/2, 1⟩] = 1/2 ∧
    max (colMax (fun r => r.throughput_mb) [⟨"1", 1/2, 1/2, 1⟩]) 1 = 1 := by
  have h1 : colMax (fun r => r.throughput_mb) [(⟨"1", 1/2, 1/2, 1⟩ : ProdRow)] = 1/2 := by
    simp [colMax, npMax]
  have h2 : maxThroughputNorm [(⟨"1", 1/2, 1/2, 1⟩ : ProdRow)] = 1/2 := by
    rw [maxThroughputNorm, h1]
    norm_num
  have h3 : max (colMax (fun r => r.throughput_mb) [(⟨"1", 1/2, 1/2, 1⟩ : ProdRow)]) 1 = 1 := by
    rw [h1, max_eq_right (by norm_num)]
  refine ⟨?_, h2, h3⟩
  rw [h2, h3]
  norm_num

/-- C4 amended: on a non-empty producer record set the normaliser
max_throughput equals the maximum throughput_mb over all records when
that maximum is positive and one otherwise (so it is not the maximum
floored at one: a positive maximum below one is used as is); max_latency
is built the same way from avg_latency_ms; both normalisers are
positive, and every record scores throughput_score =
100 * throughput_mb / max_throughput and latency_score =
100 - 100 * avg_latency_ms / max_latency. -/
theorem c4_scoring_norm (rows : List ProdRow) (hne : rows ≠ []) :
    (0 < maxThroughputNorm rows ∧ 0 < maxLatencyNorm rows) ∧
    (0 < colMax (fun r => r.throughput_mb) rows →
      maxThroughputNorm rows = colMax (fun r => r.throughput_mb) rows) ∧
    (¬ 0 < colMax (fun r => r.throughput_mb) rows → maxThroughputNorm rows = 1) ∧
    (0 < colMax (fun r => r.avg_latency_ms) rows →
      maxLatencyNorm rows = colMax (fun r => r.avg_latency_ms) rows) ∧
    (¬ 0 < colMax (fun r => r.avg_latency_ms) rows → maxLatencyNorm rows = 1) ∧
    (∀ r : ProdRow,
      throughputScore rows r = 100 * r.throughput_mb / maxThroughputNorm rows ∧
      latencyScore rows r = 100 - 100 * r.avg_latency_ms / maxLatencyNorm rows) := by
  refine ⟨⟨?_, ?_⟩, ?_, ?_, ?_, ?_, ?_⟩
  · unfold maxThroughputNorm; split
    · assumption
    · norm_num
  · unfold maxLatencyNorm; split
    · assumption
    · norm_num
  · intro h; unfold maxThroughputNorm; split
    · rfl
    · exact absurd h (by assumption)
  · intro h; unfold maxThroughputNorm; split
    · exact absurd (by assumption) h
    · rfl
  · intro h; unfold maxLatencyNorm; split
    · rfl
    · exact absurd h (by assumption)
  · intro h; unfold maxLatencyNorm; split
    · exact absurd (by assumption) h
    · rfl
  · intro r
    constructor
    · unfold throughputScore; ring
    · unfold latencyScore; ring

/-- Witness for C4 at the one-record set of the counterexample: the
normalisers are positive and the throughput normaliser equals the
positive column maximum. -/
theorem c4_scoring_norm_wit :
    0 < maxThroughputNorm [⟨"1", 1/2, 1/2, 1⟩] ∧
    maxThroughputNorm [⟨"1", 1/2, 1/2, 1⟩]
      = colMax (fun r => r.throughput_mb) [⟨"1", 1/2, 1/2, 1⟩] :=
  ⟨(c4_scoring_norm [⟨"1", 1/2, 1/2, 1⟩] (by simp)).1.1,
   (c4_scoring_norm [⟨"1", 1/2, 1/2, 1⟩] (by simp)).2.1
     (by norm_num [colMax, npMax])⟩

/-- C5: the durability recommendation restricts the candidates to
exactly the rows whose acks string equals all or -1, returns a candidate
attaining the maximum durability score among them whenever a candidate
exists, the durability score is the fixed convex combination
0.2 throughput + 0.35 latency + 0.45 consistency with the consistency
score max 0 (100 - 50 (p99 / avg - 1)) for positive average latency and
50 otherwise; and on the three-record scenario acks 0 / 1 / all with
increasing latency and decreasing throughput the durability pick is the
acks all record. -/
theorem c5_durability_pick :
    (∀ (rows : List ProdRow) (r : ProdRow),
      r ∈ durableRows rows ↔ r ∈ rows ∧ (r.acks = "all" ∨ r.acks = "-1")) ∧
    (∀ (rows : List ProdRow) (b : ProdRow),
      bestDurable rows = some b → b ∈ durableRows rows) ∧
    (∀ (rows : List ProdRow) (r b : ProdRow),
      r ∈ durableRows rows → bestDurable rows = some b →
      scoreDurability rows r ≤ scoreDurability rows b) ∧
    (∀ rows : List ProdRow, durableRows rows ≠ [] → (bestDurable rows).isSome) ∧
    (∀ (rows : List ProdRow) (r : ProdRow), scoreDurability rows r
      = 0.2 * throughputScore rows r + 0.35 * latencyScore rows r
        + 0.45 * consistencyScore r) ∧
    (∀ r : ProdRow, consistencyScore r
      = if r.avg_latency_ms > 0
        then max 0 (100 - 50 * (r.p99_ms / r.avg_latency_ms - 1)) else 50) ∧
    bestDurable [⟨"0", 30, 1, 1⟩, ⟨"1", 20, 2, 2⟩, ⟨"all", 10, 3, 3⟩]
      = some ⟨"all", 10, 3, 3⟩ := by
  refine ⟨?_, ?_, ?_, ?_, ?_, ?_, ?_⟩
  · intro rows r
    simp [durableRows, List.mem_filter]
  · intro rows b hb
    unfold bestDurable idxmaxBy at hb
    rcases hd : durableRows rows with _ | ⟨x, xs⟩
    · rw [hd] at hb; exact absurd hb (by simp)
    · rw [hd] at hb
      simp only [Option.some.injEq] at hb
      rw [← hb]
      exact foldl_best_mem (scoreDurability rows) xs x
  · intro rows r b hr hb
    unfold bestDurable idxmaxBy at hb
    rcases hd : durableRows rows with _ | ⟨x, xs⟩
    · rw [hd] at hr; simp at hr
    · rw [hd] at hb hr
      simp only [Option.some.injEq] at hb
      rw [← hb]
      exact foldl_best_le (scoreDurability rows) xs x r hr
  · intro rows hne
    unfold bestDurable idxmaxBy
    rcases hd : durableRows rows with _ | ⟨x, xs⟩
    · exact absurd hd hne
    · simp
  · intro rows r; rfl
  · intro r
    unfold consistencyScore
    split
    · congr 1; ring
    · rfl
  · simp [bestDurable, durableRows, idxmaxBy]

/-- Witness for C5 with two durable candidates: the domination property
applied at a concrete record set where the acks all record attains the
maximum durability score. -/
theorem c5_durability_pick_wit :
    scoreDurability [⟨"-1", 5, 4, 4⟩, ⟨"all", 10, 3, 3⟩] ⟨"-1", 5, 4, 4⟩
      ≤ scoreDurability [⟨"-1", 5, 4, 4⟩, ⟨"all", 10, 3, 3⟩] ⟨"all", 10, 3, 3⟩ := by
  refine c5_durability_pick.2.2.1 _ _ _ (by simp [durableRows]) ?_
  have hrows : durableRows [⟨"-1", 5, 4, 4⟩, ⟨"all", 10, 3, 3⟩]
      = [⟨"-1", 5, 4, 4⟩, ⟨"all", 10, 3, 3⟩] := by simp [durableRows]
  have hs1 : scoreDurability [⟨"-1", 5, 4, 4⟩, ⟨"all", 10, 3, 3⟩] ⟨"-1", 5, 4, 4⟩ = 55 := by
    norm_num [scoreDurability, throughputScore, latencyScore, consistencyScore,
      maxThroughputNorm, maxLatencyNorm, colMax, npMax]
  have hs2 : scoreDurability [⟨"-1", 5, 4, 4⟩, ⟨"all", 10, 3, 3⟩] ⟨"all", 10, 3, 3⟩
      = 295/4 := by
    norm_num [scoreDurability, throughputScore, latencyScore, consistencyScore,
      maxThroughputNorm, maxLatencyNorm, colMax, npMax]
  unfold bestDurable idxmaxBy
  rw [hrows]
  simp only [List.foldl_cons, List.foldl_nil, hs1, hs2]
  norm_num

/-- Unfolding of association-list lookup at a cons cell, stated with a
propositional test. -/
theorem lookup_cons_eq_if (k k1 : String) (v1 : ConfigVal) (tl : Config) :
    List.lookup k ((k1, v1) :: tl) = if k = k1 then some v1 else List.lookup k tl := by
  by_cases h : k = k1
  · subst h; simp [List.lookup]
  · have hb : (k == k1) = false := beq_eq_false_iff_ne.mpr h
    simp [List.lookup, hb, h]

/-- Dictionary assignment and lookup interact as expected: the assigned
key reads back the new value, every other key is untouched. -/
theorem lookup_dictSet (c : Config) (k' : String) (v : ConfigVal) (k : String) :
    (dictSet c k' v).lookup k = if k = k' then some v else c.lookup k := by
  induction c with
  | nil => simp [dictSet, lookup_cons_eq_if]
  | cons hd tl ih =>
    rcases hd with ⟨k1, v1⟩
    simp only [dictSet]
    by_cases h1 : k1 = k'
    · subst h1
      rw [if_pos rfl, lookup_cons_eq_if, lookup_cons_eq_if]
      by_cases hk : k = k1
      · rw [if_pos hk, if_pos hk]
      · rw [if_neg hk, if_neg hk, if_neg hk]
    · rw [if_neg h1, lookup_cons_eq_if, lookup_cons_eq_if]
      by_cases h2 : k = k1
      · subst h2
        simp [h1]
      · rw [if_neg h2, if_neg h2, ih]

/-- Keys of a dictionary after an assignment: the assigned key or an old
key. -/
theorem mem_keys_dictSet (c : Config) (k' : String) (v : ConfigVal) (x : String) :
    x ∈ (dictSet c k' v).map Prod.fst → x = k' ∨ x ∈ c.map Prod.fst := by
  induction c with
  | nil => simp [dictSet]
  | cons hd tl ih =>
    rcases hd with ⟨k1, v1⟩
    simp only [dictSet]
    split
    · next h => subst h; simp
    · intro hx
      simp only [List.map_cons, List.mem_cons] at hx
      rcases hx with h | h
      · right; simp [h]
      · rcases ih h with h2 | h2
        · left; exact h2
        · right; simp [h2]

/-- Key property of configuration dictionaries: no key is bound twice. -/
def NodupKeys (c : Config) : Prop := (c.map Prod.fst).Nodup

/-- Dictionary assignment preserves key distinctness. -/
theorem nodupKeys_dictSet (c : Config) (k : String) (v : ConfigVal)
    (h : NodupKeys c) : NodupKeys (dictSet c k v) := by
  induction c with
  | nil => simp [NodupKeys, dictSet]
  | cons hd tl ih =>
    rcases hd with ⟨k1, v1⟩
    unfold NodupKeys at h ⊢
    simp only [List.map_cons, List.nodup_cons] at h
    simp only [dictSet]
    split
    · next he =>
      subst he
      simp only [List.map_cons, List.nodup_cons]
      exact h
    · next he =>
      simp only [List.map_cons, List.nodup_cons]
      refine ⟨fun hx => ?_, ih h.2⟩
      rcases mem_keys_dictSet tl k v k1 hx with h2 | h2
      · exact he h2
      · exact h.1 h2

/-- A key absent from a dictionary looks up to none. -/
theorem lookup_eq_none_of_not_mem_keys (c : Config) (k : String)
    (h : k ∉ c.map Prod.fst) : c.lookup k = none := by
  induction c with
  | nil => rfl
  | cons hd tl ih =>
    rcases hd with ⟨k1, v1⟩
    simp only [List.map_cons, List.mem_cons] at h
    push_neg at h
    rw [lookup_cons_eq_if, if_neg h.1]
    exact ih h.2

/-- Lookup through dict.update with key-distinct new bindings: the new
dictionary wins on its keys, the old dictionary answers elsewhere. -/
theorem lookup_dictUpdate (f : Config) :
    ∀ (c : Config), NodupKeys f → ∀ k : String,
    (dictUpdate c f).lookup k =
      match f.lookup k with
      | some v => some v
      | none => c.lookup k := by
  induction f with
  | nil => intro c _ k; rfl
  | cons hd tl ih =>
    rcases hd with ⟨k1, v1⟩
    intro c hnd k
    unfold NodupKeys at hnd
    simp only [List.map_cons, List.nodup_cons] at hnd
    have step : dictUpdate c ((k1, v1) :: tl) = dictUpdate (dictSet c k1 v1) tl := rfl
    rw [step, ih (dictSet c k1 v1) hnd.2 k]
    by_cases hk : k = k1
    · subst hk
      have htl : tl.lookup k = none :=
        lookup_eq_none_of_not_mem_keys tl k hnd.1
      rw [htl, lookup_cons_eq_if, if_pos rfl, lookup_dictSet, if_pos rfl]
    · rw [lookup_cons_eq_if, if_neg hk]
      cases htl : tl.lookup k with
      | some v => rfl
      | none => rw [lookup_dictSet, if_neg hk]

/-- The filename-derived configuration never binds a key twice. -/
theorem nodupKeys_extractConfigFromFilename (stem testType : String) :
    NodupKeys (extractConfigFromFilename stem testType) := by
  unfold extractConfigFromFilename
  have hfold : ∀ (l : List (String × RE)) (c : Config), NodupKeys c →
      NodupKeys (l.foldl (fun c kp =>
        match searchRE kp.2 stem.data with
        | some (_, caps) => dictSet c kp.1 (coerceFnameVal (gStr caps 1))
        | none => c) c) := by
    intro l
    induction l with
    | nil => intro c hc; exact hc
    | cons hd tl ih =>
      intro c hc
      simp only [List.foldl_cons]
      apply ih
      cases hs : searchRE hd.2 stem.data with
      | some rc =>
        rcases rc with ⟨rest, caps⟩
        exact nodupKeys_dictSet _ _ _ hc
      | none => exact hc
  have hbase : NodupKeys (fnamePatterns.foldl (fun c kp =>
      match searchRE kp.2 stem.data with
      | some (_, caps) => dictSet c kp.1 (coerceFnameVal (gStr caps 1))
      | none => c) []) := hfold fnamePatterns [] (by simp [NodupKeys])
  by_cases hc : (splitOnChar '_' stem.data).length ≥ 2 ∧
      (splitOnChar '_' stem.data).headD [] = testType.data
  · rw [if_pos hc]
    exact nodupKeys_dictSet _ _ _ hbase
  · rw [if_neg hc]
    exact hbase

/-- C7: the configuration of a parsed log is the content-derived map
updated with the filename-derived map, so on every key the
filename-derived value wins when present and the content-derived value
is otherwise untouched. -/
theorem c7_filename_overrides (content stem testType k : String) :
    cfgGet (mergedConfig content stem testType) k =
      match cfgGet (extractConfigFromFilename stem testType) k with
      | some v => some v
      | none => cfgGet (extractConfigFromContent content) k := by
  unfold mergedConfig cfgGet
  exact lookup_dictUpdate _ _ (nodupKeys_extractConfigFromFilename stem testType) k

/-- The consumer line loop equals a filter of the stripped lines by the
skip test followed by the first successful pattern search. -/
theorem consumerScan_eq (lines : List (List Char)) :
    consumerScan lines =
      ((lines.map pstrip).filter (fun l => !skipConsumerLine l)).findSome?
        (fun l => (searchRE consumerPat l).map (fun rc => consumerMetricsOf rc.2)) := by
  induction lines with
  | nil => rfl
  | cons line rest ih =>
    simp only [consumerScan, List.map_cons, List.filter_cons]
    by_cases hskip : skipConsumerLine (pstrip line)
    · simp only [hskip, if_pos, Bool.not_true, if_neg]
      simpa [hskip] using ih
    · simp only [Bool.not_eq_true] at hskip
      simp only [hskip, Bool.not_false, if_pos, List.findSome?_cons]
      cases hs : searchRE consumerPat (pstrip line) with
      | some rc =>
        rcases rc with ⟨rest', caps⟩
        simp [hs]
      | none => simpa [hs, hskip] using ih

/-- C8: consumer extraction scans the lines in order, skipping stripped
lines that start with the header marker start.time, start with a hash,
or are blank; the metrics come from the first remaining line matched by
the positional consumer pattern with its ten fields bound in group
order, and extraction signals no record exactly when no line matches. -/
theorem c8_consumer_first_line (content : String) :
    parseConsumerMetrics content =
      (((splitOnChar '\n' content.data).map pstrip).filter
          (fun l => !skipConsumerLine l)).findSome?
        (fun l => (searchRE consumerPat l).map (fun rc => consumerMetricsOf rc.2)) ∧
    (∀ caps : Caps, consumerMetricsOf caps =
      ⟨String.mk (gStr caps 1), String.mk (gStr caps 2), ratOfGroup caps 3,
       ratOfGroup caps 4, intOfGroup caps 5, ratOfGroup caps 6, intOfGroup caps 7,
       intOfGroup caps 8, ratOfGroup caps 9, ratOfGroup caps 10⟩) ∧
    (parseConsumerMetrics content = none ↔
      ∀ l ∈ ((splitOnChar '\n' content.data).map pstrip).filter
          (fun l => !skipConsumerLine l),
        searchRE consumerPat l = none) := by
  refine ⟨consumerScan_eq _, fun caps => rfl, ?_⟩
  rw [parseConsumerMetrics, consumerScan_eq, List.findSome?_eq_none]
  constructor
  · intro h l hl
    have := h l hl
    simpa using this
  · intro h l hl
    simp [h l hl]

/-- Evaluation rule for the decimal reader: once the integer part, the
fraction digits and the fraction length are computed, the value is the
evident rational. -/
theorem decOfChars_eval (l : List Char) (ip fp k : ℕ)
    (h1 : natOfDigits (l.takeWhile (fun c => c ≠ '.')) = ip)
    (h2 : natOfDigits ((l.dropWhile (fun c => c ≠ '.')).drop 1) = fp)
    (h3 : ((l.dropWhile (fun c => c ≠ '.')).drop 1).length = k) :
    decOfChars l = (ip : ℚ) + (fp : ℚ) / (10 : ℚ) ^ k := by
  rw [show decOfChars l
      = (natOfDigits (l.takeWhile (fun c => c ≠ '.')) : ℚ)
        + (natOfDigits ((l.dropWhile (fun c => c ≠ '.')).drop 1) : ℚ)
          / (10 : ℚ) ^ ((l.dropWhile (fun c => c ≠ '.')).drop 1).length from rfl,
    h1, h2, h3]

/-- C1: whenever the producer log text has at least one final-summary
match, extraction builds the metrics from the last match: the five
mandatory fields are the captured numbers of that occurrence, and each
percentile field is the captured integer of its own optional group when
present in that occurrence and null when absent, independently of the
other percentile groups; the full record extraction carries the same
metrics. -/
theorem c1_producer_last_match (content : String)
    (h : finditer producerFinalPat content.data ≠ []) :
    parseProducerMetrics content =
      some ⟨intOfGroup ((finditer producerFinalPat content.data).getLast h) 1,
            ratOfGroup ((finditer producerFinalPat content.data).getLast h) 2,
            ratOfGroup ((finditer producerFinalPat content.data).getLast h) 3,
            ratOfGroup ((finditer producerFinalPat content.data).getLast h) 4,
            ratOfGroup ((finditer producerFinalPat content.data).getLast h) 5,
            optIntOfGroup ((finditer producerFinalPat content.data).getLast h) 6,
            optIntOfGroup ((finditer producerFinalPat content.data).getLast h) 7,
            optIntOfGroup ((finditer producerFinalPat content.data).getLast h) 8,
            optIntOfGroup ((finditer producerFinalPat content.data).getLast h) 9⟩ ∧
    (∀ stem : String,
      (parseProducerLog content stem).map ProducerRecord.metrics =
        some (finalMetricsOf ((finditer producerFinalPat content.data).getLast h))) := by
  have hl : (finditer producerFinalPat content.data).getLast? =
      some ((finditer producerFinalPat content.data).getLast h) :=
    List.getLast?_eq_getLast _ h
  have hm : parseProducerMetrics content =
      some (finalMetricsOf ((finditer producerFinalPat content.data).getLast h)) := by
    rw [parseProducerMetrics, hl]
  exact ⟨hm, fun stem => by rw [parseProducerLog, hm]; rfl⟩

set_option maxRecDepth 100000 in
/-- Witness for C1: a synthetic log with two summary lines, the second
carrying the 50th and 99th percentiles but not the 95th and 99.9th;
extraction takes the literal numbers of the second line, with the absent
percentile groups null independently of the present ones. -/
theorem c1_producer_last_match_wit :
    parseProducerMetrics "1 records sent, 1.0 records/sec (1.0 MB/sec), 1.0 ms avg latency, 1.0 ms max latency\n2 records sent, 2.0 records/sec (3.5 MB/sec), 4.0 ms avg latency, 5.0 ms max latency, 6 ms 50th, 7 ms 99th"
      = some ⟨2, 2, 7/2, 4, 5, some 6, none, some 7, none⟩ := by
  have h : finditer producerFinalPat ("1 records sent, 1.0 records/sec (1.0 MB/sec), 1.0 ms avg latency, 1.0 ms max latency\n2 records sent, 2.0 records/sec (3.5 MB/sec), 4.0 ms avg latency, 5.0 ms max latency, 6 ms 50th, 7 ms 99th" : String).data ≠ [] := by
    decide
  rw [(c1_producer_last_match _ h).1]
  have hsome : (finditer producerFinalPat ("1 records sent, 1.0 records/sec (1.0 MB/sec), 1.0 ms avg latency, 1.0 ms max latency\n2 records sent, 2.0 records/sec (3.5 MB/sec), 4.0 ms avg latency, 5.0 ms max latency, 6 ms 50th, 7 ms 99th" : String).data).getLast?
      = some [(8, ['7']), (6, ['6']), (5, ['5', '.', '0']), (4, ['4', '.', '0']),
         (3, ['3', '.', '5']), (2, ['2', '.', '0']), (1, ['2'])] := by
    decide
  have hcaps : (finditer producerFinalPat ("1 records sent, 1.0 records/sec (1.0 MB/sec), 1.0 ms avg latency, 1.0 ms max latency\n2 records sent, 2.0 records/sec (3.5 MB/sec), 4.0 ms avg latency, 5.0 ms max latency, 6 ms 50th, 7 ms 99th" : String).data).getLast h
      = [(8, ['7']), (6, ['6']), (5, ['5', '.', '0']), (4, ['4', '.', '0']),
         (3, ['3', '.', '5']), (2, ['2', '.', '0']), (1, ['2'])] := by
    have hgl := List.getLast?_eq_getLast
      (finditer producerFinalPat ("1 records sent, 1.0 records/sec (1.0 MB/sec), 1.0 ms avg latency, 1.0 ms max latency\n2 records sent, 2.0 records/sec (3.5 MB/sec), 4.0 ms avg latency, 5.0 ms max latency, 6 ms 50th, 7 ms 99th" : String).data) h
    rw [hsome] at hgl
    exact (Option.some_inj.mp hgl).symm
  rw [hcaps]
  refine congrArg some ?_
  simp only [ProducerMetrics.mk.injEq]
  refine ⟨by decide, ?_, ?_, ?_, ?_, by decide, by decide, by decide, by decide⟩
  · simp only [ratOfGroup, show gStr [(8, ['7']), (6, ['6']), (5, ['5', '.', '0']),
      (4, ['4', '.', '0']), (3, ['3', '.', '5']), (2, ['2', '.', '0']), (1, ['2'])] 2
        = ['2', '.', '0'] from by decide]
    rw [decOfChars_eval _ 2 0 1 (by decide) (by decide) (by decide)]
    norm_num
  · simp only [ratOfGroup, show gStr [(8, ['7']), (6, ['6']), (5, ['5', '.', '0']),
      (4, ['4', '.', '0']), (3, ['3', '.', '5']), (2, ['2', '.', '0']), (1, ['2'])] 3
        = ['3', '.', '5'] from by decide]
    rw [decOfChars_eval _ 3 5 1 (by decide) (by decide) (by decide)]
    norm_num
  · simp only [ratOfGroup, show gStr [(8, ['7']), (6, ['6']), (5, ['5', '.', '0']),
      (4, ['4', '.', '0']), (3, ['3', '.', '5']), (2, ['2', '.', '0']), (1, ['2'])] 4
        = ['4', '.', '0'] from by decide]
    rw [decOfChars_eval _ 4 0 1 (by decide) (by decide) (by decide)]
    norm_num
  · simp only [ratOfGroup, show gStr [(8, ['7']), (6, ['6']), (5, ['5', '.', '0']),
      (4, ['4', '.', '0']), (3, ['3', '.', '5']), (2, ['2', '.', '0']), (1, ['2'])] 5
        = ['5', '.', '0'] from by decide]
    rw [decOfChars_eval _ 5 0 1 (by decide) (by decide) (by decide)]
    norm_num

/-- C9: with no final-summary match, producer extraction falls back to
the stricter progress pattern, taking its last match with all four
percentile fields null; with neither pattern matching, extraction
signals no record (for the metrics and for the whole file). -/
theorem c9_producer_fallback (content : String)
    (h : finditer producerFinalPat content.data = []) :
    (∀ caps : Caps,
      (finditer producerProgressPat content.data).getLast? = some caps →
      parseProducerMetrics content =
        some ⟨intOfGroup caps 1, ratOfGroup caps 2, ratOfGroup caps 3,
              ratOfGroup caps 4, ratOfGroup caps 5, none, none, none, none⟩) ∧
    (finditer producerProgressPat content.data = [] →
      parseProducerMetrics content = none ∧
      ∀ stem : String, parseProducerLog content stem = none) := by
  constructor
  · intro caps hc
    rw [parseProducerMetrics, h, hc]
    rfl
  · intro hp
    have hm : parseProducerMetrics content = none := by
      rw [parseProducerMetrics, h, hp]
      rfl
    exact ⟨hm, fun stem => by rw [parseProducerLog, hm]⟩

/-- Witness for C9 on a text matching neither producer pattern:
extraction produces no record. -/
theorem c9_producer_fallback_wit :
    parseProducerMetrics "no producer output in this file" = none ∧
    parseProducerLog "no producer output in this file" "producer_x" = none := by
  have h2 := (c9_producer_fallback "no producer output in this file" (by decide)).2 (by decide)
  exact ⟨h2.1, h2.2 "producer_x"⟩

/-! ## Statistics lemmas for C6 -/

/-- A fold of min is bounded by its initial value. -/
theorem foldl_min_le_init : ∀ (xs : List ℚ) (a : ℚ), xs.foldl min a ≤ a := by
  intro xs
  induction xs with
  | nil => intro a; exact le_refl a
  | cons y ys ih =>
    intro a
    simp only [List.foldl_cons]
    exact le_trans (ih (min a y)) (min_le_left a y)

/-- A fold of min is bounded by every folded element. -/
theorem foldl_min_le_mem :
    ∀ (xs : List ℚ) (a x : ℚ), x ∈ xs → xs.foldl min a ≤ x := by
  intro xs
  induction xs with
  | nil => intro a x hx; simp at hx
  | cons y ys ih =>
    intro a x hx
    simp only [List.foldl_cons]
    rcases List.mem_cons.mp hx with h | h
    · subst h
      exact le_trans (foldl_min_le_init ys (min a x)) (min_le_right a x)
    · exact ih (min a y) x h

/-- A fold of max dominates its initial value. -/
theorem init_le_foldl_max : ∀ (xs : List ℚ) (a : ℚ), a ≤ xs.foldl max a := by
  intro xs
  induction xs with
  | nil => intro a; exact le_refl a
  | cons y ys ih =>
    intro a
    simp only [List.foldl_cons]
    exact le_trans (le_max_left a y) (ih (max a y))

/-- A fold of max dominates every folded element. -/
theorem mem_le_foldl_max :
    ∀ (xs : List ℚ) (a x : ℚ), x ∈ xs → x ≤ xs.foldl max a := by
  intro xs
  induction xs with
  | nil => intro a x hx; simp at hx
  | cons y ys ih =>
    intro a x hx
    simp only [List.foldl_cons]
    rcases List.mem_cons.mp hx with h | h
    · subst h
      exact le_trans (le_max_right a x) (init_le_foldl_max ys (max a x))
    · exact ih (max a y) x h

/-- The numpy min is a lower bound of the values. -/
theorem npMin_le (l : List ℚ) (x : ℚ) (hx : x ∈ l) : npMin l ≤ x := by
  cases l with
  | nil => simp at hx
  | cons c cs =>
    rcases List.mem_cons.mp hx with h | h
    · subst h; exact foldl_min_le_init cs x
    · exact foldl_min_le_mem cs c x h

/-- The numpy max is an upper bound of the values. -/
theorem le_npMax (l : List ℚ) (x : ℚ) (hx : x ∈ l) : x ≤ npMax l := by
  cases l with
  | nil => simp at hx
  | cons c cs =>
    rcases List.mem_cons.mp hx with h | h
    · subst h; exact init_le_foldl_max cs x
    · exact mem_le_foldl_max cs c x h

/-- The mean of a nonempty value list is at least the minimum. -/
theorem npMin_le_mean (l : List ℚ) (h : l ≠ []) : npMin l ≤ listMean l := by
  have hlen : 0 < (l.length : ℚ) := by
    have : 0 < l.length := List.length_pos.mpr h
    exact_mod_cast this
  have hsum : (l.length : ℚ) * npMin l ≤ l.sum := by
    have := List.card_nsmul_le_sum l (npMin l) (fun x hx => npMin_le l x hx)
    simpa [nsmul_eq_mul] using this
  rw [listMean, le_div_iff hlen]
  linarith [hsum]

/-- The mean of a nonempty value list is at most the maximum. -/
theorem mean_le_npMax (l : List ℚ) (h : l ≠ []) : listMean l ≤ npMax l := by
  have hlen : 0 < (l.length : ℚ) := by
    have : 0 < l.length := List.length_pos.mpr h
    exact_mod_cast this
  have hsum : l.sum ≤ (l.length : ℚ) * npMax l := by
    have := List.sum_le_card_nsmul l (npMax l) (fun x hx => le_npMax l x hx)
    simpa [nsmul_eq_mul] using this
  rw [listMean, div_le_iff hlen]
  linarith [hsum]

/-- Entries of a sorted list are monotone in the index, read through
getD at indices below the length. -/
theorem sorted_getD_le (a : List ℚ) (ha : a.Sorted (· ≤ ·)) (i j : ℕ)
    (hij : i ≤ j) (hj : j < a.length) : a.getD i 0 ≤ a.getD j 0 := by
  have hi : i < a.length := lt_of_le_of_lt hij hj
  rw [List.getD_eq_get a 0 hi, List.getD_eq_get a 0 hj]
  exact ha.rel_get_of_le (by exact_mod_cast hij)

/-- getD at an index below the length is one of the list entries. -/
theorem getD_mem (a : List ℚ) (i : ℕ) (hi : i < a.length) : a.getD i 0 ∈ a := by
  rw [List.getD_eq_get a 0 hi]
  exact List.get_mem a i hi

/-- The sorted view of the value list is sorted. -/
theorem npSorted_sorted (l : List ℚ) : (npSorted l).Sorted (· ≤ ·) :=
  List.sorted_insertionSort _ l

/-- The sorted view is a permutation of the value list. -/
theorem npSorted_perm (l : List ℚ) : List.Perm (npSorted l) l :=
  List.perm_insertionSort _ l

/-- Position bookkeeping for the interpolation kernel: with the
fractional position between zero and the last index, the two read
indices are in range and ordered. -/
theorem interp_indices (a : List ℚ) (pos : ℚ) (h0 : 0 ≤ pos)
    (h1 : pos ≤ (a.length : ℚ) - 1) (hne : a ≠ []) :
    (⌊pos⌋).toNat < a.length ∧
    min ((⌊pos⌋).toNat + 1) (a.length - 1) < a.length ∧
    (⌊pos⌋).toNat ≤ min ((⌊pos⌋).toNat + 1) (a.length - 1) := by
  have hn : 0 < a.length := List.length_pos.mpr hne
  have hfl0 : 0 ≤ ⌊pos⌋ := Int.floor_nonneg.mpr h0
  have hcast : ((⌊pos⌋).toNat : ℚ) = (⌊pos⌋ : ℚ) := by
    exact_mod_cast congrArg (fun z : ℤ => (z : ℚ)) (Int.toNat_of_nonneg hfl0)
  have hle : ((⌊pos⌋).toNat : ℚ) ≤ (a.length : ℚ) - 1 := by
    rw [hcast]
    exact le_trans (Int.floor_le pos) h1
  have hi_le : (⌊pos⌋).toNat ≤ a.length - 1 := by
    have h' : ((⌊pos⌋).toNat : ℚ) ≤ ((a.length - 1 : ℕ) : ℚ) := by
      rw [Nat.cast_sub hn]
      simpa using hle
    exact_mod_cast h'
  have hi_lt : (⌊pos⌋).toNat < a.length := lt_of_le_of_lt hi_le (Nat.sub_lt hn one_pos)
  refine ⟨hi_lt, ?_, ?_⟩
  · exact lt_of_le_of_lt (min_le_right _ _) (Nat.sub_lt hn one_pos)
  · exact le_min (Nat.le_succ _) hi_le

/-- The interpolation kernel lies between its two read entries. -/
theorem interp_between (a : List ℚ) (ha : a.Sorted (· ≤ ·)) (pos : ℚ)
    (h0 : 0 ≤ pos) (h1 : pos ≤ (a.length : ℚ) - 1) (hne : a ≠ []) :
    a.getD ((⌊pos⌋).toNat) 0 ≤ interpAt a pos ∧
    interpAt a pos ≤ a.getD (min ((⌊pos⌋).toNat + 1) (a.length - 1)) 0 := by
  obtain ⟨hi, hj, hij⟩ := interp_indices a pos h0 h1 hne
  have hmono : a.getD ((⌊pos⌋).toNat) 0
      ≤ a.getD (min ((⌊pos⌋).toNat + 1) (a.length - 1)) 0 :=
    sorted_getD_le a ha _ _ hij hj
  have hf0 : 0 ≤ Int.fract pos := Int.fract_nonneg pos
  have hf1 : Int.fract pos < 1 := Int.fract_lt_one pos
  unfold interpAt
  constructor
  · nlinarith [mul_nonneg hf0 (sub_nonneg.mpr hmono)]
  · nlinarith [mul_nonneg (sub_nonneg.mpr (le_of_lt hf1)) (sub_nonneg.mpr hmono)]

/-- The interpolation kernel is monotone in the position. -/
theorem interp_mono (a : List ℚ) (ha : a.Sorted (· ≤ ·)) (p1 p2 : ℚ)
    (h0 : 0 ≤ p1) (h12 : p1 ≤ p2) (h2 : p2 ≤ (a.length : ℚ) - 1) (hne : a ≠ []) :
    interpAt a p1 ≤ interpAt a p2 := by
  have h0' : 0 ≤ p2 := le_trans h0 h12
  have h1' : p1 ≤ (a.length : ℚ) - 1 := le_trans h12 h2
  obtain ⟨hi1, hj1, hij1⟩ := interp_indices a p1 h0 h1' hne
  obtain ⟨hi2, hj2, hij2⟩ := interp_indices a p2 h0' h2 hne
  have hfl1 : 0 ≤ ⌊p1⌋ := Int.floor_nonneg.mpr h0
  have hfl2 : 0 ≤ ⌊p2⌋ := Int.floor_nonneg.mpr h0'
  have hflle : ⌊p1⌋ ≤ ⌊p2⌋ := Int.floor_le_floor h12
  by_cases heq : (⌊p1⌋).toNat = (⌊p2⌋).toNat
  · have hfleq : ⌊p1⌋ = ⌊p2⌋ := by
      have := congrArg (fun n : ℕ => (n : ℤ)) heq
      simpa [Int.toNat_of_nonneg hfl1, Int.toNat_of_nonneg hfl2] using this
    have hfract : Int.fract p1 ≤ Int.fract p2 := by
      have e1 := Int.floor_add_fract p1
      have e2 := Int.floor_add_fract p2
      rw [hfleq] at e1
      linarith
    have hmono : a.getD ((⌊p1⌋).toNat) 0
        ≤ a.getD (min ((⌊p1⌋).toNat + 1) (a.length - 1)) 0 :=
      sorted_getD_le a ha _ _ hij1 hj1
    unfold interpAt
    rw [heq]
    have hmono2 : a.getD ((⌊p2⌋).toNat) 0
        ≤ a.getD (min ((⌊p2⌋).toNat + 1) (a.length - 1)) 0 :=
      sorted_getD_le a ha _ _ hij2 hj2
    nlinarith [mul_nonneg (sub_nonneg.mpr hfract) (sub_nonneg.mpr hmono2)]
  · have hlt : (⌊p1⌋).toNat < (⌊p2⌋).toNat :=
      lt_of_le_of_ne (by exact_mod_cast Int.toNat_le_toNat hflle) heq
    have step1 : interpAt a p1 ≤ a.getD (min ((⌊p1⌋).toNat + 1) (a.length - 1)) 0 :=
      (interp_between a ha p1 h0 h1' hne).2
    have step3 : a.getD ((⌊p2⌋).toNat) 0 ≤ interpAt a p2 :=
      (interp_between a ha p2 h0' h2 hne).1
    have hle : min ((⌊p1⌋).toNat + 1) (a.length - 1) ≤ (⌊p2⌋).toNat := by
      have h1le : (⌊p1⌋).toNat + 1 ≤ (⌊p2⌋).toNat := hlt
      by_cases hm : (⌊p1⌋).toNat + 1 ≤ a.length - 1
      · rw [min_eq_left hm]; exact h1le
      · push_neg at hm
        rw [min_eq_right (le_of_lt hm)]
        have hn : 0 < a.length := List.length_pos.mpr hne
        have : (⌊p2⌋).toNat ≤ a.length - 1 := by
          have hc : ((⌊p2⌋).toNat : ℚ) = ((⌊p2⌋ : ℤ) : ℚ) := by
            exact_mod_cast congrArg (fun z : ℤ => (z : ℚ)) (Int.toNat_of_nonneg hfl2)
          have hle2 : ((⌊p2⌋).toNat : ℚ) ≤ (a.length : ℚ) - 1 := by
            rw [hc]; exact le_trans (Int.floor_le p2) h2
          have h' : ((⌊p2⌋).toNat : ℚ) ≤ ((a.length - 1 : ℕ) : ℚ) := by
            rw [Nat.cast_sub hn]
            simpa using hle2
          exact_mod_cast h'
        omega
    have step2 : a.getD (min ((⌊p1⌋).toNat + 1) (a.length - 1)) 0
        ≤ a.getD ((⌊p2⌋).toNat) 0 :=
      sorted_getD_le a ha _ _ hle hi2
    linarith

/-- C6: for every nonempty value list, _calc_stats produces the summary
whose percentiles are the linear-interpolated percentiles of the sorted
values, whose mean is the arithmetic mean and whose spread is the
population variance with divisor N (the square of the numpy std), and
the summary satisfies min ≤ p50 ≤ p99 ≤ max and min ≤ mean ≤ max. -/
theorem c6_stats_bounds (values : List ℚ) (hne : values ≠ []) :
    calcStats values = some ⟨listMean values, listVar values, npMin values,
      npMax values, percentile 50 values, percentile 95 values,
      percentile 99 values, values.length⟩ ∧
    npMin values ≤ percentile 50 values ∧
    percentile 50 values ≤ percentile 99 values ∧
    percentile 99 values ≤ npMax values ∧
    npMin values ≤ listMean values ∧
    listMean values ≤ npMax values := by
  have hperm := npSorted_perm values
  have hsort := npSorted_sorted values
  have hane : npSorted values ≠ [] := by
    intro h
    rw [h] at hperm
    exact hne hperm.nil_eq.symm
  have hn1 : (1 : ℚ) ≤ ((npSorted values).length : ℚ) := by
    exact_mod_cast List.length_pos.mpr hane
  have hpos : ∀ q : ℚ, 0 ≤ q → q ≤ 100 →
      0 ≤ q * (((npSorted values).length : ℚ) - 1) / 100 ∧
      q * (((npSorted values).length : ℚ) - 1) / 100
        ≤ ((npSorted values).length : ℚ) - 1 := by
    intro q h0 h100
    constructor
    · apply div_nonneg (mul_nonneg h0 (by linarith)) (by norm_num)
    · rw [div_le_iff (by norm_num : (0:ℚ) < 100)]
      nlinarith
  have hp : ∀ q : ℚ, percentile q values
      = interpAt (npSorted values)
          (q * (((npSorted values).length : ℚ) - 1) / 100) := fun q => rfl
  have hbound : ∀ q : ℚ, 0 ≤ q → q ≤ 100 →
      npMin values ≤ percentile q values ∧ percentile q values ≤ npMax values := by
    intro q h0 h100
    obtain ⟨hq0, hq1⟩ := hpos q h0 h100
    obtain ⟨hi, hj, _⟩ := interp_indices _ _ hq0 hq1 hane
    obtain ⟨hlow, hhigh⟩ := interp_between _ hsort _ hq0 hq1 hane
    rw [hp q]
    constructor
    · exact le_trans (npMin_le values _ (hperm.subset (getD_mem _ _ hi))) hlow
    · exact le_trans hhigh (le_npMax values _ (hperm.subset (getD_mem _ _ hj)))
  have h50 := hbound 50 (by norm_num) (by norm_num)
  have h99 := hbound 99 (by norm_num) (by norm_num)
  have h5099 : percentile 50 values ≤ percentile 99 values := by
    rw [hp 50, hp 99]
    apply interp_mono _ hsort _ _ (hpos 50 (by norm_num) (by norm_num)).1 _
      (hpos 99 (by norm_num) (by norm_num)).2 hane
    rw [div_le_div_iff (by norm_num : (0:ℚ) < 100) (by norm_num : (0:ℚ) < 100)]
    nlinarith
  have hfirst : calcStats values = some ⟨listMean values, listVar values,
      npMin values, npMax values, percentile 50 values, percentile 95 values,
      percentile 99 values, values.length⟩ := by
    cases values with
    | nil => exact absurd rfl hne
    | cons c cs => rfl
  exact ⟨hfirst, h50.1, h5099, h99.2, npMin_le_mean values hne,
    mean_le_npMax values hne⟩

/-- Witness for C6 at the concrete value list three, one, two. -/
theorem c6_stats_bounds_wit :
    calcStats [3, 1, 2] = some ⟨listMean [3, 1, 2], listVar [3, 1, 2],
      npMin [3, 1, 2], npMax [3, 1, 2], percentile 50 [3, 1, 2],
      percentile 95 [3, 1, 2], percentile 99 [3, 1, 2], 3⟩ ∧
    npMin [3, 1, 2] ≤ percentile 50 [3, 1, 2] ∧
    percentile 50 [3, 1, 2] ≤ percentile 99 [3, 1, 2] ∧
    percentile 99 [3, 1, 2] ≤ npMax [3, 1, 2] ∧
    npMin [3, 1, 2] ≤ listMean [3, 1, 2] ∧
    listMean [3, 1, 2] ≤ npMax [3, 1, 2] :=
  c6_stats_bounds [3, 1, 2] (by decide)

/-! ## Matcher monotonicity for C10 -/

/-- Strengthening the continuation pointwise (on success) preserves
success of the greedy length search. -/
theorem tryDesc_mono {k k' : MK}
    (hk : ∀ s' c', (k s' c').isSome → (k' s' c').isSome)
    (caps : Caps) (s : List Char) (lo : Nat) :
    ∀ i : Nat, (tryDesc k caps s lo i).isSome → (tryDesc k' caps s lo i).isSome := by
  intro i
  induction i with
  | zero => intro h; exact hk _ _ h
  | succ n ih =>
    intro h
    simp only [tryDesc] at h ⊢
    cases hc : k' (s.drop (lo + n + 1)) caps with
    | some r => simp
    | none =>
      cases hck : k (s.drop (lo + n + 1)) caps with
      | some r =>
        have := hk _ _ (by rw [hck]; rfl)
        rw [hc] at this
        simp at this
      | none =>
        rw [hck] at h
        simpa using ih (by simpa using h)

/-- Continuation monotonicity of the backtracking matcher: if a match
succeeds with one continuation, it succeeds with any continuation that
succeeds wherever the first one did. -/
theorem mml_mono : ∀ (r : RE) (s : List Char) (caps : Caps) (k k' : MK),
    (∀ s' c', (k s' c').isSome → (k' s' c').isSome) →
    (mml r s caps k).isSome → (mml r s caps k').isSome := by
  intro r
  induction r with
  | eps =>
    intro s caps k k' hk h
    exact hk _ _ h
  | ch c =>
    intro s caps k k' hk h
    cases s with
    | nil => simp [mml] at h
    | cons c' s' =>
      simp only [mml] at h ⊢
      by_cases hc : c' = c
      · rw [if_pos hc] at h ⊢; exact hk _ _ h
      · rw [if_neg hc] at h; simp at h
  | chI c =>
    intro s caps k k' hk h
    cases s with
    | nil => simp [mml] at h
    | cons c' s' =>
      simp only [mml] at h ⊢
      by_cases hc : c'.toLower = c.toLower
      · rw [if_pos hc] at h ⊢; exact hk _ _ h
      · rw [if_neg hc] at h; simp at h
  | cls p =>
    intro s caps k k' hk h
    cases s with
    | nil => simp [mml] at h
    | cons c' s' =>
      simp only [mml] at h ⊢
      by_cases hc : p c'
      · rw [if_pos hc] at h ⊢; exact hk _ _ h
      · rw [if_neg hc] at h; simp at h
  | cat a b iha ihb =>
    intro s caps k k' hk h
    simp only [mml] at h ⊢
    exact iha _ _ _ _ (fun s' c' h' => ihb _ _ _ _ hk h') h
  | alt a b iha ihb =>
    intro s caps k k' hk h
    simp only [mml] at h ⊢
    cases hc : mml a s caps k' with
    | some r => simp
    | none =>
      cases hca : mml a s caps k with
      | some r =>
        have := iha _ _ _ _ hk (by rw [hca]; rfl)
        rw [hc] at this
        simp at this
      | none =>
        rw [hca] at h
        simpa using ihb _ _ _ _ hk (by simpa using h)
  | opt a iha =>
    intro s caps k k' hk h
    simp only [mml] at h ⊢
    cases hc : mml a s caps k' with
    | some r => simp
    | none =>
      cases hca : mml a s caps k with
      | some r =>
        have := iha _ _ _ _ hk (by rw [hca]; rfl)
        rw [hc] at this
        simp at this
      | none =>
        rw [hca] at h
        simpa using hk _ _ (by simpa using h)
  | rep p n =>
    intro s caps k k' hk h
    simp only [mml] at h ⊢
    split at h
    · next hcond => rw [if_pos hcond]; exact hk _ _ h
    · simp at h
  | plus p =>
    intro s caps k k' hk h
    simp only [mml] at h ⊢
    split at h
    · simp at h
    · next hcond =>
      rw [if_neg hcond]
      exact tryDesc_mono hk _ _ _ _ h
  | star p =>
    intro s caps k k' hk h
    simp only [mml] at h ⊢
    exact tryDesc_mono hk _ _ _ _ h
  | group i a iha =>
    intro s caps k k' hk h
    simp only [mml] at h ⊢
    exact iha _ _ _ _ (fun s' c' h' => hk _ _ h') h

/-- A greedy optional pattern succeeds under any total continuation. -/
theorem mml_opt_total (a : RE) (s : List Char) (caps : Caps) (k : MK)
    (hk : ∀ s' c', (k s' c').isSome) : (mml (.opt a) s caps k).isSome := by
  simp only [mml]
  cases hc : mml a s caps k with
  | some r => simp
  | none => simpa using hk s caps

/-- A concatenation of optional patterns succeeds under any total
continuation: each link can take its empty branch. -/
theorem mml_catL_total (rs : List RE) (hall : ∀ r ∈ rs, ∃ a, r = RE.opt a) :
    ∀ (s : List Char) (caps : Caps) (k : MK), (∀ s' c', (k s' c').isSome) →
    (mml (catL rs) s caps k).isSome := by
  induction rs with
  | nil => intro s caps k hk; exact hk s caps
  | cons r rest ih =>
    intro s caps k hk
    obtain ⟨a, rfl⟩ := hall r (List.mem_cons_self _ _)
    show (mml (.cat (.opt a) (catL rest)) s caps k).isSome
    simp only [mml]
    exact mml_opt_total a s caps _
      (fun s' c' => ih (fun r hr => hall r (List.mem_cons_of_mem _ hr)) s' c' k hk)

/-- Every position where the progress pattern matches is a position
where the final-summary pattern matches: the final pattern demands the
same prefix and its percentile suffixes are all optional, while the
progress pattern additionally demands a full stop. -/
theorem matchAt_progress_imp_final (t : List Char) :
    (matchAt producerProgressPat t).isSome → (matchAt producerFinalPat t).isSome := by
  intro h
  have h' : (mml producerCore t []
      (fun s' c' => mml (.ch '.') s' c'
        (fun rest caps => some (rest, caps)))).isSome := h
  show (mml producerCore t []
      (fun s' c' => mml producerPercs s' c'
        (fun rest caps => some (rest, caps)))).isSome
  apply mml_mono producerCore t [] _ _ _ h'
  intro s' c' _
  have hall : ∀ r ∈ [percOpt 6 "ms 50th", percOpt 7 "ms 95th",
      percOpt 8 "ms 99th", percOpt 9 "ms 99.9th"], ∃ a, r = RE.opt a := by
    intro r hr
    simp only [List.mem_cons, List.not_mem_nil, or_false] at hr
    rcases hr with rfl | rfl | rfl | rfl
    · exact ⟨_, rfl⟩
    · exact ⟨_, rfl⟩
    · exact ⟨_, rfl⟩
    · exact ⟨_, rfl⟩
  exact mml_catL_total _ hall s' c' _ (fun s2 c2 => rfl)

/-- With enough fuel, an empty scan certifies that no suffix of the
input matches. -/
theorem finditerAux_nil_imp (r : RE) : ∀ (fuel : Nat) (s : List Char),
    s.length < fuel → finditerAux r fuel s = [] →
    ∀ t, t <:+ s → matchAt r t = none := by
  intro fuel
  induction fuel with
  | zero => intro s h; exact absurd h (Nat.not_lt_zero _)
  | succ f ih =>
    intro s hlen hnil t hsuf
    cases s with
    | nil =>
      have ht : t = [] := List.suffix_nil.mp hsuf
      subst ht
      simp only [finditerAux] at hnil
      cases hm : matchAt r [] with
      | some rc => rw [hm] at hnil; simp at hnil
      | none => rfl
    | cons c s' =>
      cases hm : matchAt r (c :: s') with
      | some rc =>
        rcases rc with ⟨rest, caps⟩
        simp only [finditerAux, hm] at hnil
        split at hnil <;> simp at hnil
      | none =>
        simp only [finditerAux, hm] at hnil
        rcases List.suffix_cons_iff.mp hsuf with he | hs
        · rw [he]; exact hm
        · exact ih s' (Nat.lt_of_succ_lt_succ hlen) hnil t hs

/-- Conversely, when no suffix of the input matches, the scan is empty
at any fuel. -/
theorem finditerAux_nil_of (r : RE) : ∀ (fuel : Nat) (s : List Char),
    (∀ t, t <:+ s → matchAt r t = none) → finditerAux r fuel s = [] := by
  intro fuel
  induction fuel with
  | zero => intro s _; rfl
  | succ f ih =>
    intro s hall
    cases s with
    | nil =>
      simp only [finditerAux]
      rw [hall [] (List.suffix_refl [])]
    | cons c s' =>
      simp only [finditerAux]
      rw [hall (c :: s') (List.suffix_refl _)]
      exact ih s' (fun t ht => hall t (ht.trans (List.suffix_cons c s')))

/-- C10: every match of the producer progress-line pattern sits at a
position where the final-summary pattern also matches (the required part
of the final pattern is the progress pattern minus its terminating full
stop, with all percentile groups optional); hence a text with a progress
match always has a final-summary match, and the progress fallback branch
of parse_producer_log can never be the branch that produces a record:
when the final pattern has no match the progress pattern has none either
and extraction yields no record. -/
theorem c10_fallback_dead :
    (∀ t : List Char, (matchAt producerProgressPat t).isSome →
      (matchAt producerFinalPat t).isSome) ∧
    (∀ content : List Char, finditer producerProgressPat content ≠ [] →
      finditer producerFinalPat content ≠ []) ∧
    (∀ content : String, finditer producerFinalPat content.data = [] →
      finditer producerProgressPat content.data = [] ∧
      parseProducerMetrics content = none) := by
  have himp := matchAt_progress_imp_final
  have hforward : ∀ content : List Char, finditer producerFinalPat content = [] →
      finditer producerProgressPat content = [] := by
    intro content hf
    have hnone : ∀ t, t <:+ content → matchAt producerFinalPat t = none :=
      finditerAux_nil_imp producerFinalPat (content.length + 1) content
        (Nat.lt_succ_self _) hf
    apply finditerAux_nil_of
    intro t ht
    cases hm : matchAt producerProgressPat t with
    | some rc =>
      have hsome := himp t (by rw [hm]; rfl)
      rw [hnone t ht] at hsome
      simp at hsome
    | none => rfl
  refine ⟨himp, ?_, ?_⟩
  · intro content hp hf
    exact hp (hforward content hf)
  · intro content hf
    have hprog := hforward content.data hf
    refine ⟨hprog, ?_⟩
    rw [parseProducerMetrics, hf, hprog]
    rfl

/-- Witness for C10 at a concrete progress line: the progress pattern
matches, and the theorem turns that into a final-summary match and a
nonempty final scan. -/
theorem c10_fallback_dead_wit :
    (matchAt producerFinalPat
      "5 records sent, 1.0 records/sec (2.0 MB/sec), 3.0 ms avg latency, 4.0 ms max latency.".data).isSome ∧
    finditer producerFinalPat
      "5 records sent, 1.0 records/sec (2.0 MB/sec), 3.0 ms avg latency, 4.0 ms max latency.".data ≠ [] :=
  ⟨c10_fallback_dead.1 _ (by decide),
   fun hf => absurd (c10_fallback_dead.2.2
      "5 records sent, 1.0 records/sec (2.0 MB/sec), 3.0 ms avg latency, 4.0 ms max latency." hf).1
     (by decide)⟩

end KafkaPerf
